import Mathlib

/-!
Shallow embedding of the `tongzhi` backend (Go) pieces referenced by the
claims: the OIDC state-nonce store (`services/oidc.go`), the session manager
(`services/session.go`), the WeChat token manager (`services/oidc.go`,
`TokenManager`), and the token-bucket rate limiter (`middleware`, in
`main.go`).

Go `time.Time` values are modelled as `Int` nanosecond instants; the Go
comparisons `a.Before(b)` and `a.After(b)` are the strict orders `a < b`
and `a > b`.  Each method that reads `time.Now()` takes the current instant
as an explicit parameter.  Go maps are modelled as functions into `Option`
(or with the zero-value default where Go reads a missing key, as the rate
limiter does for `tokens[key]`).  Network and JSON effects are modelled as
explicit outcome values passed in.
-/

namespace Tongzhi

/-- `time.Duration` in nanoseconds: one second. -/
def second : Int := 1000000000

/-- `time.Duration` in nanoseconds: one minute. -/
def minute : Int := 60 * second

/-! ## OIDC state store (`services/oidc.go`, `OIDCProvider`) -/

/-- The mutable state of `OIDCProvider` that the state-nonce claims touch:
`stateStore map[string]time.Time`, nonce to expiry instant. -/
structure OIDCProvider where
  stateStore : String → Option Int

/-- `NewOIDCProvider`: `stateStore: make(map[string]time.Time)`. -/
def NewOIDCProvider : OIDCProvider :=
  ⟨fun _ => none⟩

/-- The state-storing step of `GetAuthorizationURL` (oidc.go:73-75):
`p.stateStore[state] = time.Now().Add(10 * time.Minute)`. -/
def OIDCProvider.storeState (p : OIDCProvider) (state : String) (now : Int) :
    OIDCProvider :=
  ⟨fun s => if s = state then some (now + 10 * minute) else p.stateStore s⟩

/-- `OIDCProvider.ValidateState` (oidc.go:88-100): looks the nonce up, returns
false if absent; otherwise deletes it and returns `time.Now().Before(expiry)`.
Result is the returned `bool` paired with the post state. -/
def OIDCProvider.ValidateState (p : OIDCProvider) (state : String) (now : Int) :
    Bool × OIDCProvider :=
  match p.stateStore state with
  | none => (false, p)
  | some expiry =>
      (decide (now < expiry), ⟨fun s => if s = state then none else p.stateStore s⟩)

/-! ## Session manager (`services/session.go`) -/

/-- `Session` (session.go:11-17). -/
structure Session where
  id : String
  userID : String
  email : String
  createdAt : Int
  expiresAt : Int
deriving DecidableEq

/-- The mutable map of `SessionManager`: `sessions map[string]*Session`. -/
structure SessionManager where
  sessions : String → Option Session

/-- `SessionManager.DeleteSession` (session.go:80-84). -/
def SessionManager.DeleteSession (sm : SessionManager) (sessionID : String) :
    SessionManager :=
  ⟨fun s => if s = sessionID then none else sm.sessions s⟩

/-- `SessionManager.GetSession` (session.go:61-77): absent keys give `nil`;
a found session is deleted and `nil` returned when `time.Now().After(ExpiresAt)`,
otherwise it is returned unchanged. -/
def SessionManager.GetSession (sm : SessionManager) (sessionID : String)
    (now : Int) : Option Session × SessionManager :=
  match sm.sessions sessionID with
  | none => (none, sm)
  | some session =>
      if now > session.expiresAt then
        (none, sm.DeleteSession sessionID)
      else
        (some session, sm)

/-- `SessionManager.ValidateSession` (session.go:87-89):
`GetSession(sessionID) != nil`. -/
def SessionManager.ValidateSession (sm : SessionManager) (sessionID : String)
    (now : Int) : Bool :=
  (sm.GetSession sessionID now).1.isSome

/-! ## WeChat token manager (`TokenManager` in `services/oidc.go` bundle) -/

/-- `TokenBufferTime = 5 * time.Minute` (ns). -/
def TokenBufferTime : Int := 5 * minute

/-- `TokenResponse` (the WeChat token API JSON). -/
structure TokenResponse where
  accessToken : String
  expiresIn : Int
  errCode : Int
  errMsg : String
deriving DecidableEq

/-- Outcome of the HTTP GET plus body read plus JSON unmarshal that
`refreshToken` performs: network failure, body-read failure, JSON parse
failure, or a decoded `TokenResponse`. -/
inductive FetchOutcome where
  | netErr
  | readErr
  | badJSON
  | resp (r : TokenResponse)
deriving DecidableEq

/-- The mutable token cache of `TokenManager`: `accessToken` and `expiresAt`
(zero value: empty string and the zero instant). -/
structure TokenManager where
  accessToken : String
  expiresAt : Int
deriving DecidableEq

/-- The freshness predicate shared by `GetAccessToken`'s fast path and
`refreshToken`'s double check:
`tm.accessToken != "" && time.Now().Add(TokenBufferTime).Before(tm.expiresAt)`. -/
def TokenManager.fresh (tm : TokenManager) (now : Int) : Bool :=
  tm.accessToken ≠ "" && now + TokenBufferTime < tm.expiresAt

/-- `TokenManager.refreshToken` (double check, then fetch; on any failure the
cache fields are untouched; on success store token and
`expiresAt = now + ExpiresIn seconds`).  The third component records whether
an upstream network call was performed. -/
def TokenManager.refreshToken (tm : TokenManager) (now : Int)
    (out : FetchOutcome) : Except String String × TokenManager × Bool :=
  if tm.fresh now then
    (Except.ok tm.accessToken, tm, false)
  else
    match out with
    | FetchOutcome.netErr => (Except.error "failed to request access token", tm, true)
    | FetchOutcome.readErr => (Except.error "failed to read response body", tm, true)
    | FetchOutcome.badJSON => (Except.error "failed to parse token response", tm, true)
    | FetchOutcome.resp r =>
        if r.errCode ≠ 0 then
          (Except.error "WeChat API error", tm, true)
        else if r.accessToken = "" then
          (Except.error "empty access token in response", tm, true)
        else
          (Except.ok r.accessToken,
           { accessToken := r.accessToken, expiresAt := now + r.expiresIn * second },
           true)

/-- `TokenManager.GetAccessToken`: fast path returns the cached token when
fresh; otherwise falls through to `refreshToken`. -/
def TokenManager.GetAccessToken (tm : TokenManager) (now : Int)
    (out : FetchOutcome) : Except String String × TokenManager × Bool :=
  if tm.fresh now then
    (Except.ok tm.accessToken, tm, false)
  else
    tm.refreshToken now out

/-- `TokenManager.IsExpired`:
`tm.accessToken == "" || time.Now().Add(TokenBufferTime).After(tm.expiresAt)`. -/
def TokenManager.IsExpired (tm : TokenManager) (now : Int) : Bool :=
  tm.accessToken = "" || now + TokenBufferTime > tm.expiresAt

/-- Serialized execution of a list of `refreshToken` bodies (the exclusive
lock in the Go code linearizes concurrent refreshers; each list entry is one
refresher's observed `time.Now()` and fetch outcome).  Returns the per-call
results with their network flags, and the final cache. -/
def TokenManager.runRefreshers (tm : TokenManager) :
    List (Int × FetchOutcome) → List (Except String String × Bool) × TokenManager
  | [] => ([], tm)
  | (now, out) :: rest =>
      let (res, tm1, net) := tm.refreshToken now out
      let (tail, tmN) := tm1.runRefreshers rest
      ((res, net) :: tail, tmN)

/-! ## Rate limiter (`RateLimiter` in the `main.go` bundle, middleware) -/

/-- `RateLimiter`: `tokens map[string]int` (a missing key reads as 0, as in
Go), `lastTime map[string]time.Time` (existence is checked on this map),
and the `rate`, `interval`, `burst` parameters. -/
structure RateLimiter where
  tokens : String → Int
  lastTime : String → Option Int
  rate : Int
  interval : Int
  burst : Int

/-- `NewRateLimiter` (main.go bundle): empty maps, given parameters. -/
def NewRateLimiter (rate interval burst : Int) : RateLimiter :=
  ⟨fun _ => 0, fun _ => none, rate, interval, burst⟩

/-- `RateLimiter.Allow` (main.go bundle:130-158).  Go's
`int(elapsed / rl.interval)` is 64-bit division truncating toward zero,
`Int.tdiv` here. -/
def RateLimiter.Allow (rl : RateLimiter) (key : String) (now : Int) :
    Bool × RateLimiter :=
  match rl.lastTime key with
  | none =>
      (true,
       { rl with
           tokens := fun k => if k = key then rl.burst - 1 else rl.tokens k,
           lastTime := fun k => if k = key then some now else rl.lastTime k })
  | some last =>
      let elapsed := now - last
      let refill := (Int.tdiv elapsed rl.interval) * rl.rate
      let tokens0 := rl.tokens key + refill
      let tokens1 := if tokens0 > rl.burst then rl.burst else tokens0
      if tokens1 > 0 then
        (true,
         { rl with
             tokens := fun k => if k = key then tokens1 - 1 else rl.tokens k,
             lastTime := fun k => if k = key then some now else rl.lastTime k })
      else
        (false, rl)

/-- Run a sequence of `Allow` calls, threading the limiter state; returns the
list of results and the final state. -/
def RateLimiter.run (rl : RateLimiter) :
    List (String × Int) → List Bool × RateLimiter
  | [] => ([], rl)
  | (key, now) :: rest =>
      let (ok, rl1) := rl.Allow key now
      let (tail, rlN) := rl1.run rest
      (ok :: tail, rlN)

/-! ## ID-token parsing (`OIDCProvider.GetUserInfoFromIDToken`) -/

/-- `UserInfo` (oidc.go:51-55). -/
structure UserInfo where
  sub : String
  email : String
  name : String
deriving DecidableEq

/-- The anonymous claims struct of `GetUserInfoFromIDToken`
(`sub`, `email`, `name`). -/
structure IDClaims where
  sub : String
  email : String
  name : String
deriving DecidableEq

/-- Go `strings.Split(s, ".")`: split at every `.`, keeping empty segments
(`Split("", ".") = [""]`). -/
def splitOnDot (s : List Char) : List (List Char) :=
  match s with
  | [] => [[]]
  | c :: rest =>
      let r := splitOnDot rest
      if c = '.' then [] :: r
      else
        match r with
        | [] => [[c]]
        | hd :: tl => (c :: hd) :: tl

/-- The padding correction of `GetUserInfoFromIDToken` (oidc.go:153-158):
append `==` when `len % 4 == 2`, `=` when `len % 4 == 3`, nothing
otherwise. -/
def addPadding (p : List Char) : List Char :=
  if p.length % 4 = 2 then p ++ ['=', '=']
  else if p.length % 4 = 3 then p ++ ['=']
  else p

/-- `encoding/base64` URL alphabet (`A-Z a-z 0-9 - _`), as the decode map. -/
def b64UrlIndex (c : Char) : Option Nat :=
  if 'A' ≤ c ∧ c ≤ 'Z' then some (c.toNat - 65)
  else if 'a' ≤ c ∧ c ≤ 'z' then some (c.toNat - 97 + 26)
  else if '0' ≤ c ∧ c ≤ '9' then some (c.toNat - 48 + 52)
  else if c = '-' then some 62
  else if c = '_' then some 63
  else none

/-- `encoding/base64` standard alphabet (`A-Z a-z 0-9 + /`). -/
def b64StdIndex (c : Char) : Option Nat :=
  if 'A' ≤ c ∧ c ≤ 'Z' then some (c.toNat - 65)
  else if 'a' ≤ c ∧ c ≤ 'z' then some (c.toNat - 97 + 26)
  else if '0' ≤ c ∧ c ≤ '9' then some (c.toNat - 48 + 52)
  else if c = '+' then some 62
  else if c = '/' then some 63
  else none

/-- Decode base64 quanta of four characters as Go's padded decoder does:
padding `=` may occur only in the final quantum, as `xx==` (one byte) or
`xxx=` (two bytes); anything after padding, a character outside the
alphabet, or a leftover of 1-3 characters is an error.  Output bytes are
`Nat` values < 256. -/
def decodeGroups (idx : Char → Option Nat) : List Char → Option (List Nat)
  | [] => some []
  | a :: b :: c :: d :: rest =>
      match idx a, idx b with
      | some va, some vb =>
          if c = '=' then
            if d = '=' ∧ rest = [] then some [va * 4 + vb / 16]
            else none
          else
            match idx c with
            | some vc =>
                if d = '=' then
                  if rest = [] then some [va * 4 + vb / 16, (vb % 16) * 16 + vc / 4]
                  else none
                else
                  match idx d with
                  | some vd =>
                      match decodeGroups idx rest with
                      | some tail =>
                          some ((va * 4 + vb / 16) :: ((vb % 16) * 16 + vc / 4) ::
                            ((vc % 4) * 64 + vd) :: tail)
                      | none => none
                  | none => none
            | none => none
      | _, _ => none
  | _ => none

/-- Go `Encoding.DecodeString`: the decoder skips `\r` and `\n` anywhere,
then decodes strict padded quanta. -/
def goBase64Decode (idx : Char → Option Nat) (s : List Char) : Option (List Nat) :=
  decodeGroups idx (s.filter (fun ch => ch != '\r' && ch != '\n'))

/-- The payload-decoding step of `GetUserInfoFromIDToken` (oidc.go:150-166):
pad, try base64url, fall back to the standard alphabet. -/
def decodedPayload (payload : List Char) : Option (List Nat) :=
  match goBase64Decode b64UrlIndex (addPadding payload) with
  | some d => some d
  | none => goBase64Decode b64StdIndex (addPadding payload)

/-- `OIDCProvider.GetUserInfoFromIDToken` (oidc.go:143-182): split into
exactly three segments, decode the middle one, parse the JSON claims, and
return `sub`, `email`, `name`.  The JSON unmarshal (Go stdlib) is passed in
as `parseClaims`. -/
def GetUserInfoFromIDToken (parseClaims : List Nat → Option IDClaims)
    (idToken : String) : Except String UserInfo :=
  match splitOnDot idToken.toList with
  | [_, payload, _] =>
      match decodedPayload payload with
      | none => Except.error "failed to decode ID token payload"
      | some decoded =>
          match parseClaims decoded with
          | none => Except.error "failed to parse ID token claims"
          | some claims => Except.ok ⟨claims.sub, claims.email, claims.name⟩
  | _ => Except.error "invalid ID token format"

/-! ## Theorems -/

/-- C1: for every nonce stored by `GetAuthorizationURL` (and in fact for any
store state), `ValidateState` returns true iff the nonce is present and the
current time is strictly before its recorded expiry; the nonce is deleted in
every case, so any later `ValidateState` call with the same value returns
false; and a nonce just stored validates true exactly within its 10-minute
TTL. -/
theorem C1_validateState_consume (p : OIDCProvider) (state : String)
    (now now' t : Int) :
    ((p.ValidateState state now).1 = true ↔
      ∃ e, p.stateStore state = some e ∧ now < e) ∧
    (p.ValidateState state now).2.stateStore state = none ∧
    ((p.ValidateState state now).2.ValidateState state now').1 = false ∧
    (((p.storeState state t).ValidateState state now).1 = true ↔
      now < t + 10 * minute) := by
  unfold OIDCProvider.ValidateState OIDCProvider.storeState
  cases h : p.stateStore state with
  | none =>
      refine ⟨by simp [h], by simp [h], by simp [h], ?_⟩
      simp
  | some e =>
      refine ⟨?_, by simp, by simp, ?_⟩
      · simp only [h]
        constructor
        · intro hd
          exact ⟨e, rfl, of_decide_eq_true hd⟩
        · rintro ⟨e', he', hlt⟩
          cases he'
          exact decide_eq_true hlt
      · simp

/-- Example session manager state for the C2 counterexample: one session
whose `expiresAt` is the instant 0. -/
def sessEx : Session :=
  ⟨"s", "u", "e@x", 0, 0⟩

/-- Session store holding `sessEx` under key "s". -/
def smEx : SessionManager :=
  ⟨fun s => if s = "s" then some sessEx else none⟩

/-- C2 counterexample: at `now = expiresAt` (here both 0) the entry is
present and `now < expiresAt` is false, yet `GetSession` returns the session
(Go's `After` is strict), contradicting the claimed
"present and now < expiresAt" characterization and the claimed deletion at
`now >= expiresAt`. -/
theorem C2_getSession_boundary_cex :
    (smEx.GetSession "s" 0).1 = some sessEx ∧ ¬ ((0 : Int) < sessEx.expiresAt) := by
  constructor
  · rfl
  · decide

/-- C2 amended: `GetSession(id)` returns the stored session iff the entry is
present and `now ≤ expiresAt`; if present but `now > expiresAt` (strictly) it
deletes the entry and returns absent, so a second call with the same id also
returns absent; and `ValidateSession(id)` is true exactly when
`GetSession(id)` is present. -/
theorem C2_getSession_spec (sm : SessionManager) (k : String) (now now' : Int) :
    ((sm.GetSession k now).1.isSome ↔
      ∃ s, sm.sessions k = some s ∧ now ≤ s.expiresAt) ∧
    (∀ s, sm.sessions k = some s → now ≤ s.expiresAt →
      (sm.GetSession k now).1 = some s) ∧
    (∀ s, sm.sessions k = some s → now > s.expiresAt →
      (sm.GetSession k now) = (none, sm.DeleteSession k) ∧
      ((sm.GetSession k now).2.GetSession k now').1 = none) ∧
    sm.ValidateSession k now = (sm.GetSession k now).1.isSome := by
  refine ⟨?_, ?_, ?_, rfl⟩
  · cases h : sm.sessions k with
    | none => simp [SessionManager.GetSession, h]
    | some s =>
        simp only [SessionManager.GetSession, h]
        by_cases hlt : now > s.expiresAt
        · simp only [if_pos hlt]
          simp only [Option.isSome_none, Bool.false_eq_true, false_iff]
          rintro ⟨s', hs', hle⟩
          cases hs'
          omega
        · simp only [if_neg hlt]
          simp only [Option.isSome_some, true_iff]
          exact ⟨s, rfl, by omega⟩
  · intro s hs hle
    simp only [SessionManager.GetSession, hs]
    rw [if_neg (by omega)]
  · intro s hs hgt
    have h1 : sm.GetSession k now = (none, sm.DeleteSession k) := by
      simp only [SessionManager.GetSession, hs]
      rw [if_pos hgt]
    refine ⟨h1, ?_⟩
    rw [h1]
    simp [SessionManager.GetSession, SessionManager.DeleteSession]

/-- C4: whenever the actual refresh fails (network error, unreadable body,
malformed JSON, non-zero errcode, empty access token), `refreshToken`
returns an error and leaves the cached token state exactly as before; on
success it stores the new token and sets
`expiresAt = now + expires_in seconds`.  (Stated past the double check,
i.e. when the cache is not fresh at `now`.) -/
theorem C4_refreshToken_failure_preserves (tm : TokenManager) (now : Int)
    (out : FetchOutcome) (h : tm.fresh now = false) :
    (∀ e, (tm.refreshToken now out).1 = Except.error e →
      (tm.refreshToken now out).2.1 = tm) ∧
    ((out = FetchOutcome.netErr ∨ out = FetchOutcome.readErr ∨
      out = FetchOutcome.badJSON ∨
      (∃ r, out = FetchOutcome.resp r ∧ (r.errCode ≠ 0 ∨ r.accessToken = ""))) →
      ∃ e, (tm.refreshToken now out).1 = Except.error e) ∧
    (∀ r, out = FetchOutcome.resp r → r.errCode = 0 → r.accessToken ≠ "" →
      (tm.refreshToken now out).1 = Except.ok r.accessToken ∧
      (tm.refreshToken now out).2.1 =
        ⟨r.accessToken, now + r.expiresIn * second⟩) := by
  unfold TokenManager.refreshToken
  rw [if_neg (by simp [h])]
  cases out with
  | netErr => refine ⟨by intro e _; rfl, by intro _; exact ⟨_, rfl⟩, by intro r hr; cases hr⟩
  | readErr => refine ⟨by intro e _; rfl, by intro _; exact ⟨_, rfl⟩, by intro r hr; cases hr⟩
  | badJSON => refine ⟨by intro e _; rfl, by intro _; exact ⟨_, rfl⟩, by intro r hr; cases hr⟩
  | resp r =>
      by_cases hc : r.errCode = 0
      · by_cases ha : r.accessToken = ""
        · refine ⟨?_, ?_, ?_⟩
          · intro e _; simp [hc, ha]
          · intro _; simp [hc, ha]
          · intro r' hr' _ ha'
            cases hr'
            exact absurd ha ha'
        · refine ⟨?_, ?_, ?_⟩
          · intro e he
            simp [hc, ha] at he
          · rintro (h1 | h1 | h1 | ⟨r', hr', hbad⟩) <;> try cases h1
            cases hr'
            rcases hbad with hbad | hbad
            · exact absurd hc hbad
            · exact absurd hbad ha
          · intro r' hr' _ _
            cases hr'
            simp [hc, ha]
      · refine ⟨?_, ?_, ?_⟩
        · intro e _; simp [hc]
        · intro _; simp [hc]
        · intro r' hr' hc' _
          cases hr'
          exact absurd hc' hc

/-- Witness for C4: a network error with a stale empty cache leaves the
cache unchanged. -/
theorem C4_refreshToken_failure_preserves_witness :
    ((TokenManager.mk "" 0).refreshToken 0 FetchOutcome.netErr).2.1 =
      TokenManager.mk "" 0 :=
  (C4_refreshToken_failure_preserves (TokenManager.mk "" 0) 0 FetchOutcome.netErr
    (by decide)).1 "failed to request access token" (by rfl)

/-- Helper: a refresher body run against a cache that is fresh at its
observed time hits the double check: it returns the cached token and makes
no network call, leaving the cache unchanged; by induction the whole
serialized list does. -/
theorem TokenManager.runRefreshers_fresh (tm : TokenManager)
    (l : List (Int × FetchOutcome)) (h : ∀ p ∈ l, tm.fresh p.1 = true) :
    tm.runRefreshers l =
      (l.map (fun _ => (Except.ok tm.accessToken, false)), tm) := by
  induction l with
  | nil => rfl
  | cons p rest ih =>
      have hp : tm.fresh p.1 = true := h p (List.mem_cons_self p rest)
      have hrest : ∀ q ∈ rest, tm.fresh q.1 = true :=
        fun q hq => h q (List.mem_cons_of_mem p hq)
      obtain ⟨now, out⟩ := p
      simp only [TokenManager.runRefreshers, TokenManager.refreshToken, hp, if_true,
        ih hrest, List.map_cons]

/-- C3: when N refresher bodies (the bodies of the concurrent
`GetAccessToken` calls that missed the fast path) are linearized by the
exclusive lock, with the first one finding a stale cache and fetching a
valid response, and every later one running while the stored expiry is still
outside the buffer window, then every call returns the first refresher's
token and exactly one upstream network call is made in total. -/
theorem C3_concurrent_refresh_single_fetch (tm : TokenManager) (t1 : Int)
    (r : TokenResponse) (rest : List (Int × FetchOutcome))
    (hstale : tm.fresh t1 = false) (hc : r.errCode = 0) (ha : r.accessToken ≠ "")
    (hwin : ∀ p ∈ rest, p.1 + TokenBufferTime < t1 + r.expiresIn * second) :
    ((tm.runRefreshers ((t1, FetchOutcome.resp r) :: rest)).1.map Prod.fst =
      List.replicate (rest.length + 1) (Except.ok r.accessToken)) ∧
    ((tm.runRefreshers ((t1, FetchOutcome.resp r) :: rest)).1.countP
      (fun p => p.2) = 1) := by
  obtain ⟨hok, hst⟩ :=
    (C4_refreshToken_failure_preserves tm t1 (FetchOutcome.resp r) hstale).2.2
      r rfl hc ha
  have hnet : (tm.refreshToken t1 (FetchOutcome.resp r)).2.2 = true := by
    simp only [TokenManager.refreshToken, hstale, Bool.false_eq_true, if_false]
    simp [hc, ha]
  have hfresh : ∀ p ∈ rest,
      (TokenManager.mk r.accessToken (t1 + r.expiresIn * second)).fresh p.1 = true := by
    intro p hp
    simp [TokenManager.fresh, ha]
    exact hwin p hp
  have hrun := TokenManager.runRefreshers_fresh
    (TokenManager.mk r.accessToken (t1 + r.expiresIn * second)) rest hfresh
  have hfull : tm.refreshToken t1 (FetchOutcome.resp r) =
      (Except.ok r.accessToken,
       TokenManager.mk r.accessToken (t1 + r.expiresIn * second), true) :=
    Prod.ext hok (Prod.ext hst hnet)
  have hstep : tm.runRefreshers ((t1, FetchOutcome.resp r) :: rest) =
      ((Except.ok r.accessToken, true) ::
        rest.map (fun _ => (Except.ok r.accessToken, false)),
       TokenManager.mk r.accessToken (t1 + r.expiresIn * second)) := by
    simp only [TokenManager.runRefreshers, hfull, hrun]
  have hmapfst : ∀ (l : List (Int × FetchOutcome)),
      (l.map (fun _ => ((Except.ok r.accessToken : Except String String), false))).map
        Prod.fst = List.replicate l.length (Except.ok r.accessToken) := by
    intro l
    induction l with
    | nil => rfl
    | cons x xs ih => simp [ih, List.replicate_succ]
  rw [hstep]
  constructor
  · simp only [List.map_cons]
    rw [List.replicate_succ]
    congr 1
    exact hmapfst rest
  · have hcount : ∀ (l : List (Int × FetchOutcome)),
        (l.map (fun _ => ((Except.ok r.accessToken : Except String String),
          false))).countP (fun p => p.2) = 0 := by
      intro l
      induction l with
      | nil => rfl
      | cons x xs ih => simp [List.countP_cons, ih]
    rw [List.countP_cons, hcount rest]
    simp

/-- Witness for C3: three serialized refreshers, first fetches a 7200 s
token, the other two observe it; one network call. -/
theorem C3_concurrent_refresh_single_fetch_witness :
    (((TokenManager.mk "" 0).runRefreshers
        ((0, FetchOutcome.resp ⟨"tok", 7200, 0, ""⟩) ::
          [(0, FetchOutcome.netErr), (1, FetchOutcome.badJSON)])).1.map Prod.fst =
      List.replicate 3 (Except.ok "tok")) ∧
    (((TokenManager.mk "" 0).runRefreshers
        ((0, FetchOutcome.resp ⟨"tok", 7200, 0, ""⟩) ::
          [(0, FetchOutcome.netErr), (1, FetchOutcome.badJSON)])).1.countP
      (fun p => p.2) = 1) :=
  C3_concurrent_refresh_single_fetch (TokenManager.mk "" 0) 0 ⟨"tok", 7200, 0, ""⟩
    [(0, FetchOutcome.netErr), (1, FetchOutcome.badJSON)]
    (by decide) rfl (by decide) (by decide)

/-- Example token cache sitting exactly at the buffer boundary at `now = 0`:
`now + TokenBufferTime = expiresAt` with a non-empty token. -/
def tmBoundary : TokenManager :=
  ⟨"t", TokenBufferTime⟩

/-- C5 counterexample: at the boundary instant `now + bufferWindow =
expiresAt` with a non-empty cached token, the fast-path freshness predicate
fails (so `GetAccessToken` falls through to a refresh), yet `IsExpired`
returns false — `IsExpired` is not the negation of the fast-path predicate
there. -/
theorem C5_isExpired_boundary_cex :
    tmBoundary.fresh 0 = false ∧
    (tmBoundary.GetAccessToken 0 FetchOutcome.netErr).2.2 = true ∧
    tmBoundary.IsExpired 0 = false := by
  decide

/-- C5 amended: `fresh` is the fast-path predicate of `GetAccessToken`
(fresh means return cached with no refresh, otherwise refresh), and
`IsExpired` is its negation at every instant except the boundary
`now + TokenBufferTime = expiresAt` with a non-empty token, where both the
fast-path predicate and `IsExpired` are false. -/
theorem C5_isExpired_amended (tm : TokenManager) (now : Int) (out : FetchOutcome) :
    (tm.fresh now = true →
      tm.GetAccessToken now out = (Except.ok tm.accessToken, tm, false)) ∧
    (tm.fresh now = false → tm.GetAccessToken now out = tm.refreshToken now out) ∧
    (tm.accessToken = "" ∨ now + TokenBufferTime ≠ tm.expiresAt →
      tm.IsExpired now = !tm.fresh now) ∧
    (tm.accessToken ≠ "" → now + TokenBufferTime = tm.expiresAt →
      tm.IsExpired now = false ∧ tm.fresh now = false) := by
  refine ⟨?_, ?_, ?_, ?_⟩
  · intro hf
    simp [TokenManager.GetAccessToken, hf]
  · intro hf
    simp [TokenManager.GetAccessToken, hf]
  · intro hne
    by_cases ha : tm.accessToken = ""
    · simp [TokenManager.IsExpired, TokenManager.fresh, ha]
    · rcases hne with hne | hne
      · exact absurd hne ha
      · by_cases hl : now + TokenBufferTime < tm.expiresAt
        · have hg : ¬ now + TokenBufferTime > tm.expiresAt := by omega
          simp [TokenManager.IsExpired, TokenManager.fresh, ha, hl, hg]
        · have hg : now + TokenBufferTime > tm.expiresAt := by omega
          simp [TokenManager.IsExpired, TokenManager.fresh, ha, hl, hg]
  · intro ha he
    have hl : ¬ now + TokenBufferTime < tm.expiresAt := by omega
    have hg : ¬ now + TokenBufferTime > tm.expiresAt := by omega
    simp [TokenManager.IsExpired, TokenManager.fresh, ha, hl, hg]

/-- Witness for C5 amended: away from the boundary, `IsExpired` equals the
negated fast-path predicate. -/
theorem C5_isExpired_amended_witness :
    (TokenManager.mk "t" 1000000000000).IsExpired 0 =
      !(TokenManager.mk "t" 1000000000000).fresh 0 :=
  (C5_isExpired_amended (TokenManager.mk "t" 1000000000000) 0
    FetchOutcome.netErr).2.2.1 (Or.inr (by decide))

/-- C10 counterexample: a successful refresh whose `expires_in` equals the
buffer window exactly (300 s) stores the token, but at the very instant the
refresh returns `IsExpired` is false (Go's `After` is strict), contradicting
"IsExpired() is true from the moment the refresh returns" for
`expires_in` at most the buffer. -/
theorem C10_expiresIn_boundary_cex :
    ((TokenManager.mk "" 0).refreshToken 0
        (FetchOutcome.resp ⟨"tok", 300, 0, ""⟩)).1 = Except.ok "tok" ∧
    (((TokenManager.mk "" 0).refreshToken 0
        (FetchOutcome.resp ⟨"tok", 300, 0, ""⟩)).2.1).IsExpired 0 = false ∧
    (300 : Int) * second ≤ TokenBufferTime :=
  ⟨by rfl, by decide, by decide⟩

/-- C10 amended: if `refreshToken` succeeds with `expires_in` strictly less
than the buffer window (for example 0), it still stores the token and
returns it without error, but the stored token is immediately stale:
`IsExpired` is true from the refresh instant on, and every subsequent
`GetAccessToken` call fails the fast-path freshness check and performs
another refresh (an upstream call whenever its own double check fails). -/
theorem C10_small_expiresIn_stale (tm : TokenManager) (now now' : Int)
    (r : TokenResponse) (out : FetchOutcome)
    (hstale : tm.fresh now = false) (hc : r.errCode = 0)
    (ha : r.accessToken ≠ "") (hsmall : r.expiresIn * second < TokenBufferTime)
    (hle : now ≤ now') :
    (tm.refreshToken now (FetchOutcome.resp r)).1 = Except.ok r.accessToken ∧
    (tm.refreshToken now (FetchOutcome.resp r)).2.1 =
      ⟨r.accessToken, now + r.expiresIn * second⟩ ∧
    ((tm.refreshToken now (FetchOutcome.resp r)).2.1).IsExpired now' = true ∧
    ((tm.refreshToken now (FetchOutcome.resp r)).2.1).fresh now' = false ∧
    (((tm.refreshToken now (FetchOutcome.resp r)).2.1).GetAccessToken now' out).2.2
      = true := by
  obtain ⟨hok, hst⟩ :=
    (C4_refreshToken_failure_preserves tm now (FetchOutcome.resp r) hstale).2.2
      r rfl hc ha
  refine ⟨hok, hst, ?_, ?_, ?_⟩
  · rw [hst]
    simp [TokenManager.IsExpired]
    omega
  · rw [hst]
    simp [TokenManager.fresh]
    intro _
    omega
  · rw [hst]
    have hfr : (TokenManager.mk r.accessToken (now + r.expiresIn * second)).fresh now'
        = false := by
      simp [TokenManager.fresh]
      intro _
      omega
    simp only [TokenManager.GetAccessToken, TokenManager.refreshToken, hfr,
      Bool.false_eq_true, if_false]
    cases out with
    | netErr => rfl
    | readErr => rfl
    | badJSON => rfl
    | resp r' =>
        by_cases hc' : r'.errCode = 0
        · by_cases ha' : r'.accessToken = "" <;> simp [hc', ha']
        · simp [hc']

/-- Witness for C10 amended: `expires_in = 0` stores a token that every
later `GetAccessToken` refreshes again. -/
theorem C10_small_expiresIn_stale_witness :
    ((TokenManager.mk "" 0).refreshToken 0
        (FetchOutcome.resp ⟨"tok", 0, 0, ""⟩)).1 = Except.ok "tok" ∧
    (((TokenManager.mk "" 0).refreshToken 0
        (FetchOutcome.resp ⟨"tok", 0, 0, ""⟩)).2.1).IsExpired 5 = true :=
  ⟨(C10_small_expiresIn_stale (TokenManager.mk "" 0) 0 5 ⟨"tok", 0, 0, ""⟩
      FetchOutcome.netErr (by decide) rfl (by decide) (by decide) (by decide)).1,
   (C10_small_expiresIn_stale (TokenManager.mk "" 0) 0 5 ⟨"tok", 0, 0, ""⟩
      FetchOutcome.netErr (by decide) rfl (by decide) (by decide) (by decide)).2.2.1⟩

/-- A second example session, unexpired at `now = 5`. -/
def sessEx2 : Session :=
  ⟨"t", "u2", "f@x", 0, 100⟩

/-- Session store holding `sessEx2` under key "t". -/
def smEx2 : SessionManager :=
  ⟨fun s => if s = "t" then some sessEx2 else none⟩

/-- Witness for C2 amended: a present, unexpired session is returned. -/
theorem C2_getSession_spec_witness :
    (smEx2.GetSession "t" 5).1 = some sessEx2 :=
  (C2_getSession_spec smEx2 "t" 5 6).2.1 sessEx2 (by rfl) (by decide)

/-- The per-key bucket range invariant: every stored token count is in
`[0, burst]` (a key Go's map has never seen reads as 0). -/
def RateLimiter.Inv (rl : RateLimiter) : Prop :=
  ∀ k, 0 ≤ rl.tokens k ∧ rl.tokens k ≤ rl.burst

/-- Equation: `Allow` on a first-seen key initializes `burst - 1` tokens,
records the timestamp, and allows. -/
theorem RateLimiter.Allow_none_eq (rl : RateLimiter) (key : String) (now : Int)
    (h : rl.lastTime key = none) :
    rl.Allow key now =
      (true,
       { rl with
           tokens := fun k => if k = key then rl.burst - 1 else rl.tokens k,
           lastTime := fun k => if k = key then some now else rl.lastTime k }) := by
  unfold RateLimiter.Allow
  rw [h]

/-- Equation: `Allow` on a seen key with a positive refilled-and-capped
count consumes one token, records the timestamp, and allows. -/
theorem RateLimiter.Allow_some_pos (rl : RateLimiter) (key : String)
    (now last : Int) (h : rl.lastTime key = some last)
    (hpos : (if rl.tokens key + Int.tdiv (now - last) rl.interval * rl.rate > rl.burst
        then rl.burst
        else rl.tokens key + Int.tdiv (now - last) rl.interval * rl.rate) > 0) :
    rl.Allow key now =
      (true,
       { rl with
           tokens := fun k => if k = key then
             (if rl.tokens key + Int.tdiv (now - last) rl.interval * rl.rate > rl.burst
              then rl.burst
              else rl.tokens key + Int.tdiv (now - last) rl.interval * rl.rate) - 1
             else rl.tokens k,
           lastTime := fun k => if k = key then some now else rl.lastTime k }) := by
  unfold RateLimiter.Allow
  rw [h]
  simp only [if_pos hpos]

/-- Equation: `Allow` on a seen key with a non-positive refilled-and-capped
count denies and leaves the limiter state untouched. -/
theorem RateLimiter.Allow_some_neg (rl : RateLimiter) (key : String)
    (now last : Int) (h : rl.lastTime key = some last)
    (hnpos : ¬ (if rl.tokens key + Int.tdiv (now - last) rl.interval * rl.rate > rl.burst
        then rl.burst
        else rl.tokens key + Int.tdiv (now - last) rl.interval * rl.rate) > 0) :
    rl.Allow key now = (false, rl) := by
  unfold RateLimiter.Allow
  rw [h]
  simp only [if_neg hnpos]

/-- Helper: one `Allow` call preserves the bucket range invariant and the
limiter parameters, for any key and any call time. -/
theorem RateLimiter.Allow_preserves_Inv (rl : RateLimiter) (key : String)
    (now : Int) (hb : 1 ≤ rl.burst) (hinv : rl.Inv) :
    (rl.Allow key now).2.Inv ∧ (rl.Allow key now).2.burst = rl.burst := by
  cases h : rl.lastTime key with
  | none =>
      rw [rl.Allow_none_eq key now h]
      refine ⟨?_, rfl⟩
      intro k
      dsimp only
      by_cases hk : k = key
      · rw [if_pos hk]
        constructor <;> omega
      · rw [if_neg hk]
        exact hinv k
  | some last =>
      by_cases hpos :
          (if rl.tokens key + Int.tdiv (now - last) rl.interval * rl.rate > rl.burst
            then rl.burst
            else rl.tokens key + Int.tdiv (now - last) rl.interval * rl.rate) > 0
      · rw [rl.Allow_some_pos key now last h hpos]
        refine ⟨?_, rfl⟩
        intro k
        dsimp only
        by_cases hk : k = key
        · rw [if_pos hk]
          have hcapb :
              (if rl.tokens key + Int.tdiv (now - last) rl.interval * rl.rate > rl.burst
                then rl.burst
                else rl.tokens key + Int.tdiv (now - last) rl.interval * rl.rate)
                ≤ rl.burst := by
            by_cases hcap :
                rl.tokens key + Int.tdiv (now - last) rl.interval * rl.rate > rl.burst
            · rw [if_pos hcap]
            · rw [if_neg hcap]
              omega
          revert hpos hcapb
          generalize (if rl.tokens key + Int.tdiv (now - last) rl.interval * rl.rate
              > rl.burst
            then rl.burst
            else rl.tokens key + Int.tdiv (now - last) rl.interval * rl.rate) = t1
          intro hpos hcapb
          constructor <;> omega
        · rw [if_neg hk]
          exact hinv k
      · rw [rl.Allow_some_neg key now last h hpos]
        exact ⟨hinv, rfl⟩

/-- C7: starting from a fresh limiter with `burst ≥ 1`, after any sequence
of `Allow` calls (any keys, any call times) every key's stored token count
lies in `[0, burst]`.  Since every intermediate state is the final state of
a prefix run, the invariant holds after each call. -/
theorem C7_rate_bucket_range (rate interval burst : Int)
    (calls : List (String × Int)) (hb : 1 ≤ burst) :
    ∀ k, 0 ≤ ((NewRateLimiter rate interval burst).run calls).2.tokens k ∧
      ((NewRateLimiter rate interval burst).run calls).2.tokens k ≤ burst := by
  have main : ∀ (l : List (String × Int)) (rl : RateLimiter),
      rl.burst = burst → rl.Inv → (rl.run l).2.Inv ∧ (rl.run l).2.burst = burst := by
    intro l
    induction l with
    | nil => intro rl hbr hinv; exact ⟨hinv, hbr⟩
    | cons c rest ih =>
        intro rl hbr hinv
        obtain ⟨key, now⟩ := c
        obtain ⟨hinv1, hbr1⟩ :=
          rl.Allow_preserves_Inv key now (hbr ▸ hb) hinv
        simpa only [RateLimiter.run] using ih (rl.Allow key now).2 (hbr1.trans hbr) hinv1
  have h0 : (NewRateLimiter rate interval burst).Inv := by
    intro k
    exact ⟨by simp [NewRateLimiter], by simp [NewRateLimiter]; omega⟩
  obtain ⟨hinv, hbr⟩ := main calls (NewRateLimiter rate interval burst) rfl h0
  intro k
  obtain ⟨h1, h2⟩ := hinv k
  rw [hbr] at h2
  exact ⟨h1, h2⟩

/-- The bucket a key holds in the limiter's two maps: absent, or the pair
(token count, last-update instant). -/
def RateLimiter.projBucket (rl : RateLimiter) (k : String) : Option (Int × Int) :=
  match rl.lastTime k with
  | none => none
  | some l => some (rl.tokens k, l)

/-- The per-key token bucket step written from the spec's words: on first
sighting of a key initialize `tokens = burst - 1`, record the timestamp,
allow; otherwise compute the elapsed time since the key's last update,
`refill = floor(elapsed / interval) * rate`, cap `tokens` at `burst`; if
`tokens > 0`, consume one and allow; else deny. -/
def specBucketAllow (rate interval burst : Int) :
    Option (Int × Int) → Int → Bool × Option (Int × Int)
  | none, now => (true, some (burst - 1, now))
  | some (tokens, last), now =>
      let elapsed := now - last
      let refill := (Int.fdiv elapsed interval) * rate
      let tokens1 := min (tokens + refill) burst
      if tokens1 > 0 then (true, some (tokens1 - 1, now))
      else (false, some (tokens, last))

/-- The C6 scenario calls: with rate 10/interval 1 s/burst 20, twenty-one
rapid calls (1 ns apart) for a fresh key, then ten calls starting one
interval later. -/
def c6calls : List (String × Int) :=
  ((List.range 21).map (fun i => ("k", (i : Int)))) ++
    ((List.range 10).map (fun j => ("k", second + 20 + (j : Int))))

/-- C6: `Allow(key)` behaves as the specified token bucket on the key's own
bucket (projected out of the maps) and touches no other key, for any call
whose time is not before the key's last update (Go's monotone clock);
in particular, with rate 10/s and burst 20, twenty rapid calls for a fresh
key all allow, the 21st within the same second denies, and ten further calls
after waiting one second all allow. -/
theorem C6_allow_token_bucket (rl : RateLimiter) (key : String) (now : Int)
    (hi : 1 ≤ rl.interval)
    (hmono : ∀ l, rl.lastTime key = some l → l ≤ now) :
    ((rl.Allow key now).1, (rl.Allow key now).2.projBucket key) =
      specBucketAllow rl.rate rl.interval rl.burst (rl.projBucket key) now ∧
    (∀ k', k' ≠ key → (rl.Allow key now).2.tokens k' = rl.tokens k' ∧
      (rl.Allow key now).2.lastTime k' = rl.lastTime k') ∧
    ((NewRateLimiter 10 second 20).run c6calls).1 =
      List.replicate 20 true ++ false :: List.replicate 10 true := by
  refine ⟨?_, ?_, by decide⟩
  · cases h : rl.lastTime key with
    | none =>
        rw [rl.Allow_none_eq key now h]
        simp [RateLimiter.projBucket, specBucketAllow, h]
    | some last =>
        have hel : 0 ≤ now - last := by
          have := hmono last h
          omega
        have hdiv : Int.fdiv (now - last) rl.interval =
            Int.tdiv (now - last) rl.interval :=
          Int.fdiv_eq_tdiv hel (by omega)
        have hmin : (if rl.tokens key + Int.tdiv (now - last) rl.interval * rl.rate
              > rl.burst
            then rl.burst
            else rl.tokens key + Int.tdiv (now - last) rl.interval * rl.rate) =
            min (rl.tokens key + Int.tdiv (now - last) rl.interval * rl.rate)
              rl.burst := by
          by_cases hc : rl.tokens key + Int.tdiv (now - last) rl.interval * rl.rate
              > rl.burst
          · rw [if_pos hc]
            exact (min_eq_right (le_of_lt hc)).symm
          · rw [if_neg hc]
            exact (min_eq_left (by omega)).symm
        simp only [RateLimiter.projBucket, specBucketAllow, h, hdiv]
        by_cases hpos :
            (if rl.tokens key + Int.tdiv (now - last) rl.interval * rl.rate > rl.burst
              then rl.burst
              else rl.tokens key + Int.tdiv (now - last) rl.interval * rl.rate) > 0
        · rw [rl.Allow_some_pos key now last h hpos]
          have hpos' :
              min (rl.tokens key + Int.tdiv (now - last) rl.interval * rl.rate)
                rl.burst > 0 := by
            rw [← hmin]
            exact hpos
          rw [if_pos hpos']
          simp [RateLimiter.projBucket, hmin]
        · rw [rl.Allow_some_neg key now last h hpos]
          have hpos' :
              ¬ min (rl.tokens key + Int.tdiv (now - last) rl.interval * rl.rate)
                rl.burst > 0 := by
            rw [← hmin]
            exact hpos
          rw [if_neg hpos']
          simp only [RateLimiter.projBucket, h]
  · intro k' hk'
    cases h : rl.lastTime key with
    | none =>
        rw [rl.Allow_none_eq key now h]
        exact ⟨by simp [if_neg hk'], by simp [if_neg hk']⟩
    | some last =>
        by_cases hpos :
            (if rl.tokens key + Int.tdiv (now - last) rl.interval * rl.rate > rl.burst
              then rl.burst
              else rl.tokens key + Int.tdiv (now - last) rl.interval * rl.rate) > 0
        · rw [rl.Allow_some_pos key now last h hpos]
          exact ⟨by simp [if_neg hk'], by simp [if_neg hk']⟩
        · rw [rl.Allow_some_neg key now last h hpos]
          exact ⟨rfl, rfl⟩

/-- Witness for C6: a first call on a fresh limiter matches the spec-level
bucket step. -/
theorem C6_allow_token_bucket_witness :
    (((NewRateLimiter 10 second 20).Allow "k" 0).1,
      ((NewRateLimiter 10 second 20).Allow "k" 0).2.projBucket "k") =
      specBucketAllow 10 second 20 ((NewRateLimiter 10 second 20).projBucket "k") 0 :=
  (C6_allow_token_bucket (NewRateLimiter 10 second 20) "k" 0 (by decide)
    (by intro l hl; simp [NewRateLimiter] at hl)).1

/-- Witness for C7: a short concrete run stays in range. -/
theorem C7_rate_bucket_range_witness :
    0 ≤ ((NewRateLimiter 10 second 20).run
        [("a", 0), ("a", 1), ("b", 1)]).2.tokens "a" ∧
      ((NewRateLimiter 10 second 20).run
        [("a", 0), ("a", 1), ("b", 1)]).2.tokens "a" ≤ 20 :=
  C7_rate_bucket_range 10 second 20 [("a", 0), ("a", 1), ("b", 1)] (by decide) "a"

/-- C8: `GetUserInfoFromIDToken` errors whenever splitting on `.` does not
give exactly three segments; otherwise it pads the middle segment to a
multiple of four characters (impossible only when its length is 1 mod 4,
which no padding could fix), decodes it as base64url falling back to the
standard alphabet, errors when both decodings or the claims parse fail, and
on success returns exactly the `sub`, `email`, `name` claims. -/
theorem C8_getUserInfoFromIDToken (parseClaims : List Nat → Option IDClaims)
    (idToken : String) :
    ((splitOnDot idToken.toList).length ≠ 3 →
      GetUserInfoFromIDToken parseClaims idToken =
        Except.error "invalid ID token format") ∧
    (∀ h p s, splitOnDot idToken.toList = [h, p, s] →
      ((addPadding p).length % 4 = 0 ∨ (p.length % 4 = 1 ∧ addPadding p = p)) ∧
      (∀ d, goBase64Decode b64UrlIndex (addPadding p) = some d →
        decodedPayload p = some d) ∧
      (goBase64Decode b64UrlIndex (addPadding p) = none →
        decodedPayload p = goBase64Decode b64StdIndex (addPadding p)) ∧
      (decodedPayload p = none →
        GetUserInfoFromIDToken parseClaims idToken =
          Except.error "failed to decode ID token payload") ∧
      (∀ bytes, decodedPayload p = some bytes →
        (parseClaims bytes = none →
          GetUserInfoFromIDToken parseClaims idToken =
            Except.error "failed to parse ID token claims") ∧
        (∀ c, parseClaims bytes = some c →
          GetUserInfoFromIDToken parseClaims idToken =
            Except.ok ⟨c.sub, c.email, c.name⟩))) := by
  constructor
  · intro hlen
    unfold GetUserInfoFromIDToken
    rcases hl : splitOnDot idToken.toList with _ | ⟨a, _ | ⟨b, _ | ⟨c, _ | ⟨d, l4⟩⟩⟩⟩
    · rfl
    · rfl
    · rfl
    · rw [hl] at hlen
      exact absurd rfl hlen
    · rfl
  · intro h p s hsplit
    have hmain : ∀ dp, decodedPayload p = dp →
        GetUserInfoFromIDToken parseClaims idToken =
          (match dp with
            | none => Except.error "failed to decode ID token payload"
            | some decoded =>
                match parseClaims decoded with
                | none => Except.error "failed to parse ID token claims"
                | some claims => Except.ok ⟨claims.sub, claims.email, claims.name⟩) := by
      intro dp hdp
      unfold GetUserInfoFromIDToken
      rw [hsplit]
      dsimp only
      rw [hdp]
    refine ⟨?_, ?_, ?_, ?_, ?_⟩
    · by_cases h2 : p.length % 4 = 2
      · left
        simp [addPadding, h2]
        omega
      · by_cases h3 : p.length % 4 = 3
        · left
          simp [addPadding, h2, h3]
          omega
        · by_cases h1 : p.length % 4 = 1
          · right
            simp [addPadding, h2, h3]
            omega
          · left
            simp [addPadding, h2, h3]
            omega
    · intro d hd
      unfold decodedPayload
      rw [hd]
    · intro hnone
      unfold decodedPayload
      rw [hnone]
    · intro hdp
      rw [hmain none hdp]
    · intro bytes hdp
      constructor
      · intro hparse
        rw [hmain (some bytes) hdp]
        dsimp only
        rw [hparse]
      · intro c hparse
        rw [hmain (some bytes) hdp]
        dsimp only
        rw [hparse]

/-- Witness for C8: a well-formed token whose payload decodes, with a parse
oracle returning fixed claims, yields exactly those claims; a two-segment
token errors. -/
theorem C8_getUserInfoFromIDToken_witness :
    GetUserInfoFromIDToken (fun _ => some ⟨"s1", "e1", "n1"⟩) "h.e30.s" =
      Except.ok ⟨"s1", "e1", "n1"⟩ ∧
    GetUserInfoFromIDToken (fun _ => some ⟨"s1", "e1", "n1"⟩) "h.e30" =
      Except.error "invalid ID token format" :=
  ⟨(((C8_getUserInfoFromIDToken (fun _ => some ⟨"s1", "e1", "n1"⟩) "h.e30.s").2
      "h".toList "e30".toList "s".toList (by decide)).2.2.2.2
      [123, 125] (by decide)).2 ⟨"s1", "e1", "n1"⟩ rfl,
   (C8_getUserInfoFromIDToken (fun _ => some ⟨"s1", "e1", "n1"⟩) "h.e30").1
      (by decide)⟩

/-- Helper: running a concatenated call list is running the two pieces in
sequence. -/
theorem RateLimiter.run_append (rl : RateLimiter)
    (l1 l2 : List (String × Int)) :
    rl.run (l1 ++ l2) =
      ((rl.run l1).1 ++ ((rl.run l1).2.run l2).1, ((rl.run l1).2.run l2).2) := by
  induction l1 generalizing rl with
  | nil => simp [RateLimiter.run]
  | cons c rest ih =>
      obtain ⟨key, now⟩ := c
      simp only [List.cons_append, RateLimiter.run, List.append_eq, ih]

/-- Helper (allow phase): from a state where the key's bucket holds at least
`ts.length` tokens (at most `burst`) and was last updated at `prev`, a chain
of calls each within one interval of its predecessor refills nothing: every
call allows and consumes exactly one token, and the final timestamp is the
last call time. -/
theorem RateLimiter.run_allow_phase (k : String) (ts : List Int) :
    ∀ (rl : RateLimiter) (prev : Int),
      rl.lastTime k = some prev → 1 ≤ rl.interval →
      (ts.length : Int) ≤ rl.tokens k → rl.tokens k ≤ rl.burst →
      List.Chain (fun a b => a ≤ b ∧ b < a + rl.interval) prev ts →
      (rl.run (ts.map (fun t => (k, t)))).1 = List.replicate ts.length true ∧
      (rl.run (ts.map (fun t => (k, t)))).2.tokens k =
        rl.tokens k - ts.length ∧
      (rl.run (ts.map (fun t => (k, t)))).2.lastTime k =
        some ((prev :: ts).getLast (List.cons_ne_nil prev ts)) ∧
      (rl.run (ts.map (fun t => (k, t)))).2.interval = rl.interval ∧
      (rl.run (ts.map (fun t => (k, t)))).2.burst = rl.burst := by
  induction ts with
  | nil =>
      intro rl prev hlast hi _ _ _
      refine ⟨rfl, by simp [RateLimiter.run], ?_, rfl, rfl⟩
      simpa [RateLimiter.run, List.getLast] using hlast
  | cons t ts ih =>
      intro rl prev hlast hi htok hburst hchain
      rcases hchain with _ | ⟨⟨hpl, hlt⟩, hchain'⟩
      have hz : Int.tdiv (t - prev) rl.interval = 0 :=
        Int.tdiv_eq_zero_of_lt (by omega) (by omega)
      have hT : rl.tokens k + Int.tdiv (t - prev) rl.interval * rl.rate
          = rl.tokens k := by
        rw [hz]
        ring
      have hcap : ¬ rl.tokens k + Int.tdiv (t - prev) rl.interval * rl.rate
          > rl.burst := by
        rw [hT]
        omega
      have hpos : (if rl.tokens k + Int.tdiv (t - prev) rl.interval * rl.rate
            > rl.burst
          then rl.burst
          else rl.tokens k + Int.tdiv (t - prev) rl.interval * rl.rate) > 0 := by
        rw [if_neg hcap, hT]
        have : (0 : Int) < (ts.length : Int) + 1 := by positivity
        simp only [List.length_cons] at htok
        push_cast at htok
        omega
      have hstep := rl.Allow_some_pos k t prev hlast hpos
      have hfst : (rl.Allow k t).1 = true := by
        rw [hstep]
      have hlast1 : (rl.Allow k t).2.lastTime k = some t := by
        rw [hstep]
        simp
      have htok1 : (rl.Allow k t).2.tokens k = rl.tokens k - 1 := by
        rw [hstep]
        dsimp only
        simp only [eq_self_iff_true, if_true]
        rw [if_neg hcap, hT]
      have hint1 : (rl.Allow k t).2.interval = rl.interval := by
        rw [hstep]
      have hburst1 : (rl.Allow k t).2.burst = rl.burst := by
        rw [hstep]
      obtain ⟨hres, htokN, hlastN, hintN, hburstN⟩ :=
        ih ((rl.Allow k t).2) t hlast1 (by rw [hint1]; exact hi)
          (by
            rw [htok1]
            simp only [List.length_cons] at htok
            push_cast at htok ⊢
            omega)
          (by rw [htok1, hburst1]; omega)
          (by simp only [hint1]; exact hchain')
      simp only [List.map_cons, RateLimiter.run]
      refine ⟨?_, ?_, ?_, ?_, ?_⟩
      · rw [hres, hfst]
        simp [List.replicate_succ]
      · rw [htokN, htok1]
        simp only [List.length_cons]
        push_cast
        ring
      · rw [hlastN]
        congr 1
      · rw [hintN, hint1]
      · rw [hburstN, hburst1]

/-- Helper (deny phase): from a state where the key's bucket holds zero
tokens and was last updated at `L`, every call strictly within one interval
of `L` computes zero refill, denies, and leaves the limiter state literally
unchanged. -/
theorem RateLimiter.run_deny_phase (k : String) (ts : List Int) :
    ∀ (rl : RateLimiter) (L : Int),
      rl.lastTime k = some L → 1 ≤ rl.interval → rl.tokens k = 0 →
      (∀ t ∈ ts, L ≤ t ∧ t < L + rl.interval) →
      rl.run (ts.map (fun t => (k, t))) =
        (List.replicate ts.length false, rl) := by
  induction ts with
  | nil =>
      intro rl L _ _ _ _
      rfl
  | cons t ts ih =>
      intro rl L hlast hi htok hwin
      obtain ⟨hLt, hlt⟩ := hwin t (List.mem_cons_self t ts)
      have hz : Int.tdiv (t - L) rl.interval = 0 :=
        Int.tdiv_eq_zero_of_lt (by omega) (by omega)
      have hT : rl.tokens k + Int.tdiv (t - L) rl.interval * rl.rate = 0 := by
        rw [hz, htok]
        ring
      have hnpos : ¬ (if rl.tokens k + Int.tdiv (t - L) rl.interval * rl.rate
            > rl.burst
          then rl.burst
          else rl.tokens k + Int.tdiv (t - L) rl.interval * rl.rate) > 0 := by
        rw [hT]
        by_cases hb0 : (0 : Int) > rl.burst
        · rw [if_pos hb0]
          omega
        · rw [if_neg hb0]
          omega
      have hstep := rl.Allow_some_neg k t L hlast hnpos
      simp only [List.map_cons, RateLimiter.run, hstep]
      rw [ih rl L hlast hi htok (fun t' ht' => hwin t' (List.mem_cons_of_mem t ht'))]
      rfl

/-- C9: a denied `Allow` call leaves the limiter state unchanged; an allowed
call records its call time as the key's timestamp (even with zero refill);
and in a single-key sequence starting fresh whose first `burst` calls are
each strictly less than one interval after their predecessor and whose
remaining calls are all strictly less than one interval after the last
allowed call, exactly the first `burst` calls allow and every remaining
call denies, with the bucket left at zero tokens and the timestamp of the
last allowed call (no refill ever occurs). -/
theorem C9_deny_keeps_state_rapid_calls_deny (rate interval burst : Int)
    (k : String) (t0 : Int) (ts1 ts2 : List Int) (L : Int)
    (hi : 1 ≤ interval) (hb : 1 ≤ burst)
    (hlen : ((t0 :: ts1).length : Int) = burst)
    (hchain : List.Chain (fun a b => a ≤ b ∧ b < a + interval) t0 ts1)
    (hL : (t0 :: ts1).getLast? = some L)
    (hts2 : ∀ t ∈ ts2, L ≤ t ∧ t < L + interval) :
    (∀ (rl : RateLimiter) (key : String) (now : Int),
      (rl.Allow key now).1 = false → (rl.Allow key now).2 = rl) ∧
    (∀ (rl : RateLimiter) (key : String) (now : Int),
      (rl.Allow key now).1 = true → (rl.Allow key now).2.lastTime key = some now) ∧
    (((NewRateLimiter rate interval burst).run
        (((t0 :: ts1) ++ ts2).map (fun t => (k, t)))).1 =
      List.replicate (t0 :: ts1).length true ++
        List.replicate ts2.length false) ∧
    ((NewRateLimiter rate interval burst).run
        (((t0 :: ts1) ++ ts2).map (fun t => (k, t)))).2.tokens k = 0 ∧
    ((NewRateLimiter rate interval burst).run
        (((t0 :: ts1) ++ ts2).map (fun t => (k, t)))).2.lastTime k = some L := by
  have hdeny : ∀ (rl : RateLimiter) (key : String) (now : Int),
      (rl.Allow key now).1 = false → (rl.Allow key now).2 = rl := by
    intro rl key now hres
    cases h : rl.lastTime key with
    | none =>
        rw [rl.Allow_none_eq key now h] at hres
        cases hres
    | some last =>
        by_cases hpos :
            (if rl.tokens key + Int.tdiv (now - last) rl.interval * rl.rate > rl.burst
              then rl.burst
              else rl.tokens key + Int.tdiv (now - last) rl.interval * rl.rate) > 0
        · rw [rl.Allow_some_pos key now last h hpos] at hres
          cases hres
        · rw [rl.Allow_some_neg key now last h hpos]
  have hallow : ∀ (rl : RateLimiter) (key : String) (now : Int),
      (rl.Allow key now).1 = true → (rl.Allow key now).2.lastTime key = some now := by
    intro rl key now hres
    cases h : rl.lastTime key with
    | none =>
        rw [rl.Allow_none_eq key now h]
        simp
    | some last =>
        by_cases hpos :
            (if rl.tokens key + Int.tdiv (now - last) rl.interval * rl.rate > rl.burst
              then rl.burst
              else rl.tokens key + Int.tdiv (now - last) rl.interval * rl.rate) > 0
        · rw [rl.Allow_some_pos key now last h hpos]
          simp
        · rw [rl.Allow_some_neg key now last h hpos] at hres
          cases hres
  refine ⟨hdeny, hallow, ?_⟩
  -- first call on the fresh key
  have h0 : (NewRateLimiter rate interval burst).lastTime k = none := rfl
  have hstep0 := (NewRateLimiter rate interval burst).Allow_none_eq k t0 h0
  -- the state after the first call
  have hlast1 : ((NewRateLimiter rate interval burst).Allow k t0).2.lastTime k
      = some t0 := by
    rw [hstep0]
    simp
  have htok1 : ((NewRateLimiter rate interval burst).Allow k t0).2.tokens k
      = burst - 1 := by
    rw [hstep0]
    simp [NewRateLimiter]
  have hint1 : ((NewRateLimiter rate interval burst).Allow k t0).2.interval
      = interval := by
    rw [hstep0]
    rfl
  have hburst1 : ((NewRateLimiter rate interval burst).Allow k t0).2.burst
      = burst := by
    rw [hstep0]
    rfl
  have hchain1 : List.Chain
      (fun a b => a ≤ b ∧ b <
        a + ((NewRateLimiter rate interval burst).Allow k t0).2.interval) t0 ts1 := by
    simp only [hint1]
    exact hchain
  have hlen1 : (ts1.length : Int) ≤
      ((NewRateLimiter rate interval burst).Allow k t0).2.tokens k := by
    rw [htok1]
    simp only [List.length_cons] at hlen
    push_cast at hlen
    omega
  have hphase1 := RateLimiter.run_allow_phase k ts1
    ((NewRateLimiter rate interval burst).Allow k t0).2 t0 hlast1
    (by rw [hint1]; exact hi) hlen1 (by rw [htok1, hburst1]; omega) hchain1
  obtain ⟨hres1, htokm, hlastm, hintm, hburstm⟩ := hphase1
  have hLval : (t0 :: ts1).getLast (List.cons_ne_nil t0 ts1) = L := by
    have := List.getLast?_eq_getLast (t0 :: ts1) (List.cons_ne_nil t0 ts1)
    rw [this] at hL
    exact (Option.some_injective _ hL)
  have hphase2 := RateLimiter.run_deny_phase k ts2
    ((((NewRateLimiter rate interval burst).Allow k t0).2).run
      (ts1.map (fun t => (k, t)))).2 L
    (by rw [hlastm, hLval]) (by rw [hintm, hint1]; exact hi)
    (by rw [htokm, htok1]; simp only [List.length_cons] at hlen; push_cast at hlen; omega)
    (by simp only [hintm, hint1]; exact hts2)
  -- assemble the full run
  have hsplit : ((t0 :: ts1) ++ ts2).map (fun t => (k, t)) =
      (k, t0) :: (ts1.map (fun t => (k, t)) ++ ts2.map (fun t => (k, t))) := by
    simp
  have hfst : ((NewRateLimiter rate interval burst).Allow k t0).1 = true := by
    rw [hstep0]
  refine ⟨?_, ?_, ?_⟩
  · rw [hsplit]
    simp only [RateLimiter.run]
    rw [RateLimiter.run_append, hres1, hphase2, hfst]
    dsimp only
    simp [List.replicate_succ]
  · rw [hsplit]
    simp only [RateLimiter.run]
    rw [RateLimiter.run_append, hphase2]
    dsimp only
    rw [htokm, htok1]
    simp only [List.length_cons] at hlen
    push_cast at hlen ⊢
    omega
  · rw [hsplit]
    simp only [RateLimiter.run]
    rw [RateLimiter.run_append, hphase2]
    dsimp only
    rw [hlastm, hLval]

/-- Witness for C9: burst 2, interval 1 s, calls at 0 ns and 1 ns allow,
calls at 2 ns and 3 ns deny. -/
theorem C9_deny_keeps_state_rapid_calls_deny_witness :
    ((NewRateLimiter 10 second 2).run
        ((([0, 1] : List Int) ++ [2, 3]).map (fun t => ("k", t)))).1 =
      List.replicate 2 true ++ List.replicate 2 false :=
  (C9_deny_keeps_state_rapid_calls_deny 10 second 2 "k" 0 [1] [2, 3] 1
    (by decide) (by decide) (by decide)
    (List.Chain.cons (by decide) List.Chain.nil)
    (by decide) (by decide)).2.2.1

end Tongzhi
